import Mathlib

/-!
Verification of the HTML link/image/fragment indexer from `src/util.rs`
(functions `parse_html_files`, `collect_links`, `collect_imgs`,
`collect_fragments`) against its natural-language specification.

The embedding models:
  * HTML elements and documents (a document is the list of its elements in
    traversal order; the CSS selectors used by the code — `a[href]`,
    `img[src]`, `[id]` — only examine the tag name and attributes, so a
    flat element list is a faithful view of `Html::select`);
  * the URL classifier `HrefUrl::parse` / `ImgUrl::parse` from the crate's
    `site_url` module, which is not part of the sources under study — these
    are modelled from the specification's classifier contract;
  * the filesystem as a list of entries (files with content, or
    directories), with `glob` matching every entry whose path ends in
    `.html` and `fs::read_to_string` failing on directories;
  * `eyre!` error wrapping as plain string concatenation following the
    exact format strings of the source.
-/

set_option autoImplicit false

deriving instance DecidableEq for Except

namespace SiteCheck

/-- Modelled from the spec: the `MalformedUrl` error of the URL classifier
(§7 of the spec); the classifier itself lives in `src/site_url.rs`, which is
not among the sources. It carries the original string and the reason. -/
structure MalformedUrl where
  raw : String
  reason : String
deriving DecidableEq, Repr

/-- Modelled from the spec: the display form of a `MalformedUrl`, carrying
the raw string and the reason (the exact rendering is unspecified; any
rendering containing both fields satisfies the contract). -/
def MalformedUrl.render (e : MalformedUrl) : String :=
  e.reason ++ ": `" ++ e.raw ++ "`"

/-- Modelled from the spec: a typed `href` URL value — internal reference
(path + optional fragment), external absolute URL, or fragment-only
reference (§3, §4.1). Structural equality is the derived one. -/
inductive HrefUrl where
  | internal (path : String) (fragment : Option String)
  | external (url : String)
  | fragmentOnly (fragment : String)
deriving DecidableEq, Repr

/-- Modelled from the spec: an `src` URL value, same shape as `HrefUrl`
but kept as a distinct type (§3). -/
inductive ImgUrl where
  | internal (path : String) (fragment : Option String)
  | external (url : String)
  | fragmentOnly (fragment : String)
deriving DecidableEq, Repr

/-- A character allowed inside a URL scheme after the leading letter. -/
def schemeCharOk (c : Char) : Bool :=
  c.isAlpha || c.isDigit || c == '+' || c == '-' || c == '.'

/-- The characters before the first `:` of the string, provided a `:`
occurs before any `/`, `#` or `?`; `none` when the string has no scheme
position at all. -/
def schemeChars : List Char → Option (List Char)
  | [] => none
  | c :: rest =>
    if c == ':' then some []
    else if c == '/' || c == '#' || c == '?' then none
    else (schemeChars rest).map (fun s => c :: s)

/-- A syntactically valid scheme: a letter followed by letters, digits,
`+`, `-` or `.`. -/
def schemeOk : List Char → Bool
  | [] => false
  | c :: rest => c.isAlpha && rest.all schemeCharOk

/-- Split a character list at the first `#`: the part before it and, when a
`#` is present, everything after it. -/
def splitAtHash : List Char → List Char × Option (List Char)
  | [] => ([], none)
  | c :: rest =>
    if c == '#' then ([], some rest)
    else
      let pr := splitAtHash rest
      (c :: pr.1, pr.2)

/-- The path part and optional fragment of an internal reference: the
string is split at the first `#`. -/
def splitFragment (raw : String) : String × Option String :=
  let pr := splitAtHash raw.data
  (String.mk pr.1, pr.2.map String.mk)

/-- Whether the string begins with `#` (a fragment-only reference). -/
def fragStart (raw : String) : Bool :=
  match raw.data with
  | c :: _ => c == '#'
  | [] => false

/-- Modelled from the spec: `HrefUrl::parse` (§4.1). Accepts fragment-only
references, classifies strings with a scheme as external (rejecting a
malformed scheme such as in `ht!tp://bad`, the spec's example of an
unclassifiable href), and treats everything else as an internal reference
with an optional fragment. Pure function of the input string. -/
def HrefUrl.parse (raw : String) : Except MalformedUrl HrefUrl :=
  if raw = "" then Except.error ⟨raw, "empty url"⟩
  else if fragStart raw then
    Except.ok (HrefUrl.fragmentOnly (String.mk (raw.data.drop 1)))
  else
    match schemeChars raw.data with
    | some scheme =>
      if schemeOk scheme then Except.ok (HrefUrl.external raw)
      else Except.error ⟨raw, "invalid scheme"⟩
    | none =>
      let pf := splitFragment raw
      Except.ok (HrefUrl.internal pf.1 pf.2)

/-- Modelled from the spec: `ImgUrl::parse` (§4.1), same classification as
`HrefUrl.parse` but producing the distinct image URL type. -/
def ImgUrl.parse (raw : String) : Except MalformedUrl ImgUrl :=
  if raw = "" then Except.error ⟨raw, "empty url"⟩
  else if fragStart raw then
    Except.ok (ImgUrl.fragmentOnly (String.mk (raw.data.drop 1)))
  else
    match schemeChars raw.data with
    | some scheme =>
      if schemeOk scheme then Except.ok (ImgUrl.external raw)
      else Except.error ⟨raw, "invalid scheme"⟩
    | none =>
      let pf := splitFragment raw
      Except.ok (ImgUrl.internal pf.1 pf.2)

/-- An HTML element: tag name and attribute list, the data the selectors
`a[href]`, `img[src]`, `[id]` and `ElementRef::attr` inspect. -/
structure Element where
  tag : String
  attrs : List (String × String)
deriving DecidableEq, Repr

/-- `element.value().attr(name)`: the value of the first attribute with the
given name. -/
def Element.attr (e : Element) (name : String) : Option String :=
  (e.attrs.find? (fun p => p.1 == name)).map (fun p => p.2)

/-- The serialized form of an element, modelling the `{:#?}` debug
rendering of `element.value()` used in the scan error messages. -/
def Element.serialize (e : Element) : String :=
  "<" ++ e.tag ++
    (e.attrs.foldl (fun acc p => acc ++ " " ++ p.1 ++ "=\x22" ++ p.2 ++ "\x22") ("")) ++
    ">"

/-- A parsed HTML document: its elements in traversal order. -/
abbrev Html := List Element

/-- The selector `a[href]`: an `a` element carrying an `href` attribute. -/
def linkSel (e : Element) : Bool :=
  e.tag == "a" && (e.attr ("href")).isSome

/-- The selector `img[src]`: an `img` element carrying a `src` attribute. -/
def imgSel (e : Element) : Bool :=
  e.tag == "img" && (e.attr ("src")).isSome

/-- The selector `[id]`: any element carrying an `id` attribute. -/
def idSel (e : Element) : Bool :=
  (e.attr ("id")).isSome

/-- The loop body of `collect_links`: over each selected element, read its
`href`, classify it, and insert into the set; a classification failure
aborts with the `eyre!` message of the source. -/
def linksLoop : List Element → Finset HrefUrl → Except String (Finset HrefUrl)
  | [], acc => Except.ok acc
  | e :: rest, acc =>
    match e.attr ("href") with
    | some href =>
      match HrefUrl.parse href with
      | Except.ok u => linksLoop rest (insert u acc)
      | Except.error err =>
        Except.error ("Error in parsing href in element: " ++ e.serialize ++ "\n  " ++
          err.render)
    | none => linksLoop rest acc

/-- `collect_links` from `src/util.rs`. -/
def collect_links (document : Html) : Except String (Finset HrefUrl) :=
  linksLoop (document.filter linkSel) ∅

/-- The loop body of `collect_imgs`. -/
def imgsLoop : List Element → Finset ImgUrl → Except String (Finset ImgUrl)
  | [], acc => Except.ok acc
  | e :: rest, acc =>
    match e.attr ("src") with
    | some src =>
      match ImgUrl.parse src with
      | Except.ok u => imgsLoop rest (insert u acc)
      | Except.error err =>
        Except.error ("Error in parsing src in img: " ++ e.serialize ++ "\n  " ++
          err.render)
    | none => imgsLoop rest acc

/-- `collect_imgs` from `src/util.rs`. -/
def collect_imgs (document : Html) : Except String (Finset ImgUrl) :=
  imgsLoop (document.filter imgSel) ∅

/-- The loop body of `collect_fragments`: each `id` value is normalized to
`#<id>` and inserted; nothing can fail. -/
def fragmentsLoop : List Element → Finset String → Finset String
  | [], acc => acc
  | e :: rest, acc =>
    match e.attr ("id") with
    | some i => fragmentsLoop rest (insert ("#" ++ i) acc)
    | none => fragmentsLoop rest acc

/-- `collect_fragments` from `src/util.rs`; the `Result` return type is kept
even though no branch produces an error. -/
def collect_fragments (document : Html) : Except String (Finset String) :=
  Except.ok (fragmentsLoop (document.filter idSel) ∅)

/-- A filesystem entry: a file with UTF-8 content, or a directory. -/
inductive FsKind where
  | file (content : String)
  | directory
deriving DecidableEq, Repr

/-- A filesystem entry seen during the tree walk. -/
structure FsEntry where
  path : String
  kind : FsKind
deriving DecidableEq, Repr

/-- Whether `s` ends with the given suffix string. -/
def strEndsWith (s suffix : String) : Bool :=
  List.isSuffixOf suffix.data s.data

/-- `glob("{output_dir}/**/*.html")`: every entry of the tree whose path
ends in `.html`, whether it is a file or a directory — the glob pattern
matches on names only. -/
def globHtml (tree : List FsEntry) : List FsEntry :=
  tree.filter (fun e => strEndsWith e.path (".html"))

/-- `fs::read_to_string`: the content for a file; for a directory the read
fails with the OS error, which `?` propagates unwrapped. -/
def readToString (e : FsEntry) : Except String String :=
  match e.kind with
  | FsKind.file c => Except.ok c
  | FsKind.directory => Except.error ("Is a directory (os error 21)")

/-- The `ParsedFile` record of `src/util.rs`. -/
structure ParsedFile where
  path : String
  html : Html
  content : String
  links : Finset HrefUrl
  imgs : Finset ImgUrl
  fragments : Finset String
deriving DecidableEq

/-- The index type `ParsedFiles = HashMap<Utf8PathBuf, ParsedFile>`, as the
association list of its entries. -/
abbrev ParsedFiles := List (String × ParsedFile)

/-- The `eyre!("Error parsing file ...")` wrapper attaching the file path
to a scan error. -/
def wrapFileErr (path msg : String) : String :=
  "Error parsing file `" ++ path ++ "`:\n  " ++ msg

/-- The per-file closure of `parse_html_files`: read the file, parse the
document (`parseDoc` stands for the lenient external HTML parser
`Html::parse_document`), run the three collectors, wrap any failure with
the file's path, and emit the `(path, record)` pair. -/
def scanFile (parseDoc : String → Html) (entry : FsEntry) :
    Except String (String × ParsedFile) :=
  match readToString entry with
  | Except.error e => Except.error e
  | Except.ok content =>
    let html := parseDoc content
    match collect_links html with
    | Except.error err => Except.error (wrapFileErr entry.path err)
    | Except.ok links =>
      match collect_imgs html with
      | Except.error err => Except.error (wrapFileErr entry.path err)
      | Except.ok imgs =>
        match collect_fragments html with
        | Except.error err => Except.error (wrapFileErr entry.path err)
        | Except.ok fragments =>
          Except.ok (entry.path,
            { path := entry.path, html := html, content := content,
              links := links, imgs := imgs, fragments := fragments })

/-- `Iterator::map(..).collect::<Result<HashMap>>()`: scan each matched
entry in turn, stopping at the first failure. -/
def indexLoop (parseDoc : String → Html) : List FsEntry → Except String ParsedFiles
  | [] => Except.ok []
  | entry :: rest =>
    match scanFile parseDoc entry with
    | Except.error e => Except.error e
    | Except.ok kv =>
      match indexLoop parseDoc rest with
      | Except.error e => Except.error e
      | Except.ok kvs => Except.ok (kv :: kvs)

/-- `parse_html_files` from `src/util.rs`, parameterized by the external
HTML parser. -/
def parse_html_files (parseDoc : String → Html) (tree : List FsEntry) :
    Except String ParsedFiles :=
  indexLoop parseDoc (globHtml tree)

/-! ### Characterization lemmas for the collector loops -/

/-- The URL contributed by one element to `links`: its classified `href`,
when present and classifiable. -/
def hrefExtract (e : Element) : Option HrefUrl :=
  (e.attr ("href")).bind (fun h => (HrefUrl.parse h).toOption)

/-- The URL contributed by one element to `imgs`. -/
def srcExtract (e : Element) : Option ImgUrl :=
  (e.attr ("src")).bind (fun s => (ImgUrl.parse s).toOption)

/-- The fragment contributed by one element: `#` followed by its `id`. -/
def idExtract (e : Element) : Option String :=
  (e.attr ("id")).map (fun i => "#" ++ i)

theorem linksLoop_ok (l : List Element) (acc s : Finset HrefUrl)
    (h : linksLoop l acc = Except.ok s) :
    s = acc ∪ (l.filterMap hrefExtract).toFinset := by
  induction l generalizing acc with
  | nil =>
    simp only [linksLoop] at h
    cases h
    simp
  | cons e rest ih =>
    simp only [linksLoop] at h
    cases he : e.attr ("href") with
    | none =>
      rw [he] at h
      dsimp only at h
      have hex : hrefExtract e = none := by simp [hrefExtract, he]
      rw [ih _ h, List.filterMap_cons_none hex]
    | some href =>
      rw [he] at h
      dsimp only at h
      cases hp : HrefUrl.parse href with
      | error mu => rw [hp] at h; dsimp only at h; simp at h
      | ok u =>
        rw [hp] at h
        dsimp only at h
        have hex : hrefExtract e = some u := by
          simp [hrefExtract, he, hp, Except.toOption]
        rw [ih _ h, List.filterMap_cons_some hex, List.toFinset_cons,
          Finset.union_insert, Finset.insert_union]

theorem linksLoop_error (l : List Element) (acc : Finset HrefUrl) (msg : String)
    (h : linksLoop l acc = Except.error msg) :
    ∃ e ∈ l, ∃ raw mu, e.attr ("href") = some raw ∧
      HrefUrl.parse raw = Except.error mu ∧
      msg = "Error in parsing href in element: " ++ e.serialize ++ "\n  " ++ mu.render := by
  induction l generalizing acc with
  | nil => simp only [linksLoop] at h; cases h
  | cons e rest ih =>
    simp only [linksLoop] at h
    cases he : e.attr ("href") with
    | none =>
      rw [he] at h
      dsimp only at h
      obtain ⟨f, hf, rest⟩ := ih _ h
      exact ⟨f, List.mem_cons_of_mem _ hf, rest⟩
    | some href =>
      rw [he] at h
      dsimp only at h
      cases hp : HrefUrl.parse href with
      | error mu =>
        rw [hp] at h
        dsimp only at h
        cases h
        exact ⟨e, List.mem_cons_self _ _, href, mu, he, hp, rfl⟩
      | ok u =>
        rw [hp] at h
        dsimp only at h
        obtain ⟨f, hf, rest⟩ := ih _ h
        exact ⟨f, List.mem_cons_of_mem _ hf, rest⟩

theorem imgsLoop_ok (l : List Element) (acc s : Finset ImgUrl)
    (h : imgsLoop l acc = Except.ok s) :
    s = acc ∪ (l.filterMap srcExtract).toFinset := by
  induction l generalizing acc with
  | nil =>
    simp only [imgsLoop] at h
    cases h
    simp
  | cons e rest ih =>
    simp only [imgsLoop] at h
    cases he : e.attr ("src") with
    | none =>
      rw [he] at h
      dsimp only at h
      have hex : srcExtract e = none := by simp [srcExtract, he]
      rw [ih _ h, List.filterMap_cons_none hex]
    | some src =>
      rw [he] at h
      dsimp only at h
      cases hp : ImgUrl.parse src with
      | error mu => rw [hp] at h; dsimp only at h; simp at h
      | ok u =>
        rw [hp] at h
        dsimp only at h
        have hex : srcExtract e = some u := by
          simp [srcExtract, he, hp, Except.toOption]
        rw [ih _ h, List.filterMap_cons_some hex, List.toFinset_cons,
          Finset.union_insert, Finset.insert_union]

theorem imgsLoop_error (l : List Element) (acc : Finset ImgUrl) (msg : String)
    (h : imgsLoop l acc = Except.error msg) :
    ∃ e ∈ l, ∃ raw mu, e.attr ("src") = some raw ∧
      ImgUrl.parse raw = Except.error mu ∧
      msg = "Error in parsing src in img: " ++ e.serialize ++ "\n  " ++ mu.render := by
  induction l generalizing acc with
  | nil => simp only [imgsLoop] at h; cases h
  | cons e rest ih =>
    simp only [imgsLoop] at h
    cases he : e.attr ("src") with
    | none =>
      rw [he] at h
      dsimp only at h
      obtain ⟨f, hf, rest⟩ := ih _ h
      exact ⟨f, List.mem_cons_of_mem _ hf, rest⟩
    | some src =>
      rw [he] at h
      dsimp only at h
      cases hp : ImgUrl.parse src with
      | error mu =>
        rw [hp] at h
        dsimp only at h
        cases h
        exact ⟨e, List.mem_cons_self _ _, src, mu, he, hp, rfl⟩
      | ok u =>
        rw [hp] at h
        dsimp only at h
        obtain ⟨f, hf, rest⟩ := ih _ h
        exact ⟨f, List.mem_cons_of_mem _ hf, rest⟩

theorem fragmentsLoop_eq (l : List Element) (acc : Finset String) :
    fragmentsLoop l acc = acc ∪ (l.filterMap idExtract).toFinset := by
  induction l generalizing acc with
  | nil => simp [fragmentsLoop]
  | cons e rest ih =>
    simp only [fragmentsLoop]
    cases he : e.attr ("id") with
    | none =>
      have hex : idExtract e = none := by simp [idExtract, he]
      dsimp only
      rw [ih, List.filterMap_cons_none hex]
    | some i =>
      have hex : idExtract e = some ("#" ++ i) := by simp [idExtract, he]
      dsimp only
      rw [ih, List.filterMap_cons_some hex, List.toFinset_cons,
        Finset.union_insert, Finset.insert_union]

theorem collect_links_ok (document : Html) (s : Finset HrefUrl)
    (h : collect_links document = Except.ok s) :
    s = ((document.filter linkSel).filterMap hrefExtract).toFinset := by
  have := linksLoop_ok _ _ _ h
  simpa using this

theorem collect_imgs_ok (document : Html) (s : Finset ImgUrl)
    (h : collect_imgs document = Except.ok s) :
    s = ((document.filter imgSel).filterMap srcExtract).toFinset := by
  have := imgsLoop_ok _ _ _ h
  simpa using this

theorem collect_fragments_eq (document : Html) :
    collect_fragments document =
      Except.ok (((document.filter idSel).filterMap idExtract).toFinset) := by
  simp [collect_fragments, fragmentsLoop_eq]

/-! ### Lemmas about the classifier errors -/

theorem hrefParse_error_raw (raw : String) (mu : MalformedUrl)
    (h : HrefUrl.parse raw = Except.error mu) : mu.raw = raw := by
  unfold HrefUrl.parse at h
  split at h
  · cases h; rfl
  · split at h
    · cases h
    · split at h
      · split at h
        · cases h
        · cases h; rfl
      · cases h

theorem imgParse_error_raw (raw : String) (mu : MalformedUrl)
    (h : ImgUrl.parse raw = Except.error mu) : mu.raw = raw := by
  unfold ImgUrl.parse at h
  split at h
  · cases h; rfl
  · split at h
    · cases h
    · split at h
      · split at h
        · cases h
        · cases h; rfl
      · cases h

/-! ### Lemmas about the per-file scan and the index loop -/

theorem scanFile_dir (parseDoc : String → Html) (entry : FsEntry)
    (hk : entry.kind = FsKind.directory) :
    scanFile parseDoc entry = Except.error ("Is a directory (os error 21)") := by
  simp [scanFile, readToString, hk]

theorem scanFile_file_linkErr (parseDoc : String → Html) (entry : FsEntry)
    (c : String) (hk : entry.kind = FsKind.file c) (m : String)
    (hl : collect_links (parseDoc c) = Except.error m) :
    scanFile parseDoc entry = Except.error (wrapFileErr entry.path m) := by
  simp [scanFile, readToString, hk, hl]

theorem scanFile_file_imgErr (parseDoc : String → Html) (entry : FsEntry)
    (c : String) (hk : entry.kind = FsKind.file c)
    (links : Finset HrefUrl) (hl : collect_links (parseDoc c) = Except.ok links)
    (m : String) (hi : collect_imgs (parseDoc c) = Except.error m) :
    scanFile parseDoc entry = Except.error (wrapFileErr entry.path m) := by
  simp [scanFile, readToString, hk, hl, hi]

theorem scanFile_error (parseDoc : String → Html) (entry : FsEntry) (msg : String)
    (h : scanFile parseDoc entry = Except.error msg) :
    (entry.kind = FsKind.directory ∧ msg = "Is a directory (os error 21)") ∨
    ∃ c, entry.kind = FsKind.file c ∧ ∃ m,
      (collect_links (parseDoc c) = Except.error m ∨
        collect_imgs (parseDoc c) = Except.error m) ∧
      msg = wrapFileErr entry.path m := by
  cases hk : entry.kind with
  | directory =>
    rw [scanFile_dir parseDoc entry hk] at h
    cases h
    exact Or.inl ⟨rfl, rfl⟩
  | file c =>
    refine Or.inr ⟨c, rfl, ?_⟩
    unfold scanFile at h
    rw [show readToString entry = Except.ok c by simp [readToString, hk]] at h
    dsimp only at h
    cases hl : collect_links (parseDoc c) with
    | error m =>
      rw [hl] at h
      dsimp only at h
      cases h
      exact ⟨m, Or.inl rfl, rfl⟩
    | ok links =>
      rw [hl] at h
      dsimp only at h
      cases hi : collect_imgs (parseDoc c) with
      | error m =>
        rw [hi] at h
        dsimp only at h
        cases h
        exact ⟨m, Or.inr rfl, rfl⟩
      | ok imgs =>
        rw [hi] at h
        dsimp only at h
        rw [collect_fragments_eq] at h
        dsimp only at h
        cases h

theorem scanFile_ok_path (parseDoc : String → Html) (entry : FsEntry)
    (kv : String × ParsedFile) (h : scanFile parseDoc entry = Except.ok kv) :
    kv.1 = kv.2.path := by
  unfold scanFile at h
  cases hk : entry.kind with
  | directory =>
    rw [show readToString entry = Except.error ("Is a directory (os error 21)") by
      simp [readToString, hk]] at h
    dsimp only at h
    cases h
  | file c =>
    rw [show readToString entry = Except.ok c by simp [readToString, hk]] at h
    dsimp only at h
    cases hl : collect_links (parseDoc c) with
    | error m => rw [hl] at h; dsimp only at h; cases h
    | ok links =>
      rw [hl] at h
      dsimp only at h
      cases hi : collect_imgs (parseDoc c) with
      | error m => rw [hi] at h; dsimp only at h; cases h
      | ok imgs =>
        rw [hi] at h
        dsimp only at h
        rw [collect_fragments_eq] at h
        dsimp only at h
        cases h
        rfl

theorem indexLoop_ok_forall (parseDoc : String → Html) (l : List FsEntry)
    (kvs : ParsedFiles) (h : indexLoop parseDoc l = Except.ok kvs) :
    ∀ entry ∈ l, ∃ kv, scanFile parseDoc entry = Except.ok kv := by
  induction l generalizing kvs with
  | nil => intro entry he; cases he
  | cons e rest ih =>
    intro entry he
    simp only [indexLoop] at h
    cases hs : scanFile parseDoc e with
    | error m => rw [hs] at h; dsimp only at h; cases h
    | ok kv =>
      rw [hs] at h
      dsimp only at h
      cases hr : indexLoop parseDoc rest with
      | error m => rw [hr] at h; dsimp only at h; cases h
      | ok kvs2 =>
        cases List.mem_cons.mp he with
        | inl heq => exact ⟨kv, heq ▸ hs⟩
        | inr hmem => exact ih kvs2 hr entry hmem

theorem indexLoop_ok_mem (parseDoc : String → Html) (l : List FsEntry)
    (kvs : ParsedFiles) (h : indexLoop parseDoc l = Except.ok kvs) :
    ∀ kv ∈ kvs, ∃ entry ∈ l, scanFile parseDoc entry = Except.ok kv := by
  induction l generalizing kvs with
  | nil =>
    simp only [indexLoop] at h
    cases h
    intro kv hkv
    cases hkv
  | cons e rest ih =>
    simp only [indexLoop] at h
    cases hs : scanFile parseDoc e with
    | error m => rw [hs] at h; dsimp only at h; cases h
    | ok kv0 =>
      rw [hs] at h
      dsimp only at h
      cases hr : indexLoop parseDoc rest with
      | error m => rw [hr] at h; dsimp only at h; cases h
      | ok kvs2 =>
        rw [hr] at h
        dsimp only at h
        cases h
        intro kv hkv
        cases List.mem_cons.mp hkv with
        | inl heq => exact ⟨e, List.mem_cons_self _ _, heq ▸ hs⟩
        | inr hmem =>
          obtain ⟨entry, hentry, hok⟩ := ih kvs2 hr kv hmem
          exact ⟨entry, List.mem_cons_of_mem _ hentry, hok⟩

theorem indexLoop_error_mem (parseDoc : String → Html) (l : List FsEntry)
    (msg : String) (h : indexLoop parseDoc l = Except.error msg) :
    ∃ entry ∈ l, scanFile parseDoc entry = Except.error msg := by
  induction l with
  | nil => simp only [indexLoop] at h; cases h
  | cons e rest ih =>
    simp only [indexLoop] at h
    cases hs : scanFile parseDoc e with
    | error m =>
      rw [hs] at h
      dsimp only at h
      cases h
      exact ⟨e, List.mem_cons_self _ _, hs⟩
    | ok kv =>
      rw [hs] at h
      dsimp only at h
      cases hr : indexLoop parseDoc rest with
      | error m =>
        rw [hr] at h
        dsimp only at h
        cases h
        obtain ⟨entry, hentry, herr⟩ := ih hr
        exact ⟨entry, List.mem_cons_of_mem _ hentry, herr⟩
      | ok kvs2 => rw [hr] at h; dsimp only at h; cases h

/-- An entry of the tree whose scan fails forces the whole indexing run to
fail: shared between the fail-fast theorems. -/
theorem scan_failure_aborts (parseDoc : String → Html) (tree : List FsEntry)
    (entry : FsEntry) (hmem : entry ∈ globHtml tree)
    (hfail : ∃ m, scanFile parseDoc entry = Except.error m) :
    ∃ msg, parse_html_files parseDoc tree = Except.error msg := by
  obtain ⟨m, hm⟩ := hfail
  cases hres : parse_html_files parseDoc tree with
  | error msg => exact ⟨msg, rfl⟩
  | ok kvs =>
    obtain ⟨kv, hkv⟩ := indexLoop_ok_forall parseDoc (globHtml tree) kvs hres entry hmem
    rw [hm] at hkv
    cases hkv

/-! ### Concrete documents and trees used in counterexamples and witnesses -/

/-- An `a` element with the given `href`. -/
def anchor (href : String) : Element :=
  ⟨"a", [("href", href)]⟩

/-- An `img` element with the given `src`. -/
def image (src : String) : Element :=
  ⟨"img", [("src", src)]⟩

/-- A `link` element carrying an `href` — exposed to the selector `[href]`
but not to `a[href]`. -/
def linkElem : Element :=
  ⟨"link", [("href", "/style.css")]⟩

/-- A `script` element carrying a `src` — exposed to the selector `[src]`
but not to `img[src]`. -/
def scriptElem : Element :=
  ⟨"script", [("src", "/app.js")]⟩

/-- An anchor that also defines a fragment id. -/
def eaElem : Element :=
  ⟨"a", [("href", "/a.html"), ("id", "x")]⟩

/-- An image that also defines a fragment id. -/
def eiElem : Element :=
  ⟨"img", [("src", "/i.png"), ("id", "y")]⟩

/-- One `linksLoop` step over an anchor element. -/
theorem linksLoop_cons_anchor (href : String) (rest : List Element)
    (acc : Finset HrefUrl) :
    linksLoop (anchor href :: rest) acc =
      match HrefUrl.parse href with
      | Except.ok u => linksLoop rest (insert u acc)
      | Except.error err =>
        Except.error ("Error in parsing href in element: " ++
          (anchor href).serialize ++ "\n  " ++ err.render) := rfl

/-! ### The claims -/

/-- C2, counterexample: the document consisting of the single element
`<link href="/style.css">` exposes an `href` whose classification succeeds,
yet `collect_links` returns the empty set — the selector is `a[href]`, so a
non-`a` element carrying an `href` is omitted. -/
theorem collect_links_nonanchor_cex :
    linkElem.attr ("href") = some ("/style.css") ∧
    HrefUrl.parse ("/style.css") =
      Except.ok (HrefUrl.internal ("/style.css") none) ∧
    collect_links [linkElem] = Except.ok (∅ : Finset HrefUrl) ∧
    HrefUrl.internal ("/style.css") none ∉ (∅ : Finset HrefUrl) := by
  refine ⟨by decide, by decide, by decide, by decide⟩

/-- C2, amended: when a document scan succeeds, the `links` set contains the
classified `href` of every `a` element of the document carrying an `href`
attribute (elements of other tags are not selected by `a[href]`). -/
theorem collect_links_anchor_complete (document : Html) (s : Finset HrefUrl)
    (h : collect_links document = Except.ok s) (e : Element) (hmem : e ∈ document)
    (htag : e.tag = "a") (href : String) (ha : e.attr ("href") = some href)
    (u : HrefUrl) (hp : HrefUrl.parse href = Except.ok u) : u ∈ s := by
  rw [collect_links_ok document s h, List.mem_toFinset, List.mem_filterMap]
  refine ⟨e, List.mem_filter.mpr ⟨hmem, by simp [linkSel, htag, ha]⟩, ?_⟩
  simp [hrefExtract, ha, hp, Except.toOption]

/-- Witness for C2's amended theorem at the document `[<a href="/a.html">]`. -/
theorem collect_links_anchor_complete_witness :
    HrefUrl.internal ("/a.html") none ∈
      ({HrefUrl.internal ("/a.html") none} : Finset HrefUrl) :=
  collect_links_anchor_complete [anchor ("/a.html")]
    {HrefUrl.internal ("/a.html") none} (by decide) (anchor ("/a.html"))
    (by decide) rfl ("/a.html") (by decide)
    (HrefUrl.internal ("/a.html") none) (by decide)

/-- C3, counterexample: the document consisting of the single element
`<script src="/app.js">` exposes a `src` whose classification succeeds, yet
`collect_imgs` returns the empty set — the selector is `img[src]`, so a
non-`img` element carrying a `src` is omitted. -/
theorem collect_imgs_nonimg_cex :
    scriptElem.attr ("src") = some ("/app.js") ∧
    ImgUrl.parse ("/app.js") = Except.ok (ImgUrl.internal ("/app.js") none) ∧
    collect_imgs [scriptElem] = Except.ok (∅ : Finset ImgUrl) ∧
    ImgUrl.internal ("/app.js") none ∉ (∅ : Finset ImgUrl) := by
  refine ⟨by decide, by decide, by decide, by decide⟩

/-- C3, amended: when a document scan succeeds, the `imgs` set contains the
classified `src` of every `img` element of the document carrying a `src`
attribute (elements of other tags are not selected by `img[src]`). -/
theorem collect_imgs_img_complete (document : Html) (s : Finset ImgUrl)
    (h : collect_imgs document = Except.ok s) (e : Element) (hmem : e ∈ document)
    (htag : e.tag = "img") (src : String) (ha : e.attr ("src") = some src)
    (u : ImgUrl) (hp : ImgUrl.parse src = Except.ok u) : u ∈ s := by
  rw [collect_imgs_ok document s h, List.mem_toFinset, List.mem_filterMap]
  refine ⟨e, List.mem_filter.mpr ⟨hmem, by simp [imgSel, htag, ha]⟩, ?_⟩
  simp [srcExtract, ha, hp, Except.toOption]

/-- Witness for C3's amended theorem at the document `[<img src="/i.png">]`. -/
theorem collect_imgs_img_complete_witness :
    ImgUrl.internal ("/i.png") none ∈
      ({ImgUrl.internal ("/i.png") none} : Finset ImgUrl) :=
  collect_imgs_img_complete [image ("/i.png")]
    {ImgUrl.internal ("/i.png") none} (by decide) (image ("/i.png"))
    (by decide) rfl ("/i.png") (by decide)
    (ImgUrl.internal ("/i.png") none) (by decide)

/-- C4: scanning is deterministic in the element multiset — for two
documents that are permutations of each other (the same content under a
different selector-traversal order), successful scans yield exactly equal
`links`, `imgs` and `fragments` sets. For one fixed text the two scans run
the identical pure functions, so this covers repeated scans as well. -/
theorem scan_perm_invariant (doc doc' : Html) (hperm : doc.Perm doc')
    (sl sl' : Finset HrefUrl) (si si' : Finset ImgUrl) (sf sf' : Finset String)
    (hl : collect_links doc = Except.ok sl)
    (hl' : collect_links doc' = Except.ok sl')
    (hi : collect_imgs doc = Except.ok si)
    (hi' : collect_imgs doc' = Except.ok si')
    (hf : collect_fragments doc = Except.ok sf)
    (hf' : collect_fragments doc' = Except.ok sf') :
    sl = sl' ∧ si = si' ∧ sf = sf' := by
  refine ⟨?_, ?_, ?_⟩
  · rw [collect_links_ok doc sl hl, collect_links_ok doc' sl' hl']
    exact List.toFinset_eq_of_perm _ _
      (List.Perm.filterMap hrefExtract (hperm.filter linkSel))
  · rw [collect_imgs_ok doc si hi, collect_imgs_ok doc' si' hi']
    exact List.toFinset_eq_of_perm _ _
      (List.Perm.filterMap srcExtract (hperm.filter imgSel))
  · rw [collect_fragments_eq] at hf hf'
    cases hf
    cases hf'
    exact List.toFinset_eq_of_perm _ _
      (List.Perm.filterMap idExtract (hperm.filter idSel))

/-- Witness for C4 at a two-element document and its reversal: the two
fragment sets are built by insertions in opposite orders yet are equal. -/
theorem scan_perm_invariant_witness :
    ({HrefUrl.internal ("/a.html") none} : Finset HrefUrl) =
      {HrefUrl.internal ("/a.html") none} ∧
    ({ImgUrl.internal ("/i.png") none} : Finset ImgUrl) =
      {ImgUrl.internal ("/i.png") none} ∧
    insert ("#y") (insert ("#x") (∅ : Finset String)) =
      insert ("#x") (insert ("#y") (∅ : Finset String)) :=
  scan_perm_invariant [eaElem, eiElem] [eiElem, eaElem] (by decide)
    _ _ _ _ _ _
    (by decide) (by decide) (by decide) (by decide) rfl rfl

/-- C5: when a scan succeeds, the `fragments` set contains `#` followed by
the `id` value of every element carrying an `id` attribute, and nothing
else; duplicate ids are tolerated (the hypothesis is satisfiable for every
document by C9's totality theorem). -/
theorem collect_fragments_spec (document : Html) (s : Finset String)
    (h : collect_fragments document = Except.ok s) :
    (∀ e ∈ document, ∀ i, e.attr ("id") = some i → ("#" ++ i) ∈ s) ∧
    (∀ f ∈ s, ∃ e ∈ document, ∃ i, e.attr ("id") = some i ∧ f = "#" ++ i) := by
  rw [collect_fragments_eq] at h
  cases h
  constructor
  · intro e hmem i hi
    rw [List.mem_toFinset, List.mem_filterMap]
    exact ⟨e, List.mem_filter.mpr ⟨hmem, by simp [idSel, hi]⟩,
      by simp [idExtract, hi]⟩
  · intro f hf
    rw [List.mem_toFinset, List.mem_filterMap] at hf
    obtain ⟨e, hmem, hex⟩ := hf
    have hmem' := (List.mem_filter.mp hmem).1
    simp only [idExtract] at hex
    cases hi : e.attr ("id") with
    | none => rw [hi] at hex; cases hex
    | some i =>
      rw [hi] at hex
      exact ⟨e, hmem', i, hi, (Option.some.injEq _ _ ▸ hex).symm⟩

/-- Witness for C5 at `<h2 id="intro">` plus a duplicate `<p id="intro">`:
the scan succeeds and yields exactly the entry `"#intro"`. -/
theorem collect_fragments_spec_witness :
    ("#intro" : String) ∈ ({"#intro"} : Finset String) :=
  (collect_fragments_spec [⟨"h2", [("id", "intro")]⟩, ⟨"p", [("id", "intro")]⟩]
      {"#intro"} (by decide)).1
    ⟨"h2", [("id", "intro")]⟩ (by decide) ("intro") (by decide)

/-- C6: a document made of two anchors whose hrefs classify to the same URL
value yields a `links` set equal to the singleton of that value, of size 1:
duplicates collapse under the classifier's structural equality. -/
theorem collect_links_dedup (h1 h2 : String) (u : HrefUrl)
    (hp1 : HrefUrl.parse h1 = Except.ok u) (hp2 : HrefUrl.parse h2 = Except.ok u) :
    collect_links [anchor h1, anchor h2] = Except.ok ({u} : Finset HrefUrl) ∧
    ({u} : Finset HrefUrl).card = 1 := by
  refine ⟨?_, Finset.card_singleton u⟩
  have hstep1 : collect_links [anchor h1, anchor h2] =
      linksLoop [anchor h2] (insert u ∅) := by
    unfold collect_links
    rw [show List.filter linkSel [anchor h1, anchor h2] = [anchor h1, anchor h2]
      from rfl]
    rw [linksLoop_cons_anchor, hp1]
  have hstep2 : linksLoop [anchor h2] (insert u ∅) =
      Except.ok (insert u (insert u ∅)) := by
    rw [linksLoop_cons_anchor, hp2]
    rfl
  rw [hstep1, hstep2, Finset.insert_idem]
  simp

/-- Witness for C6 with the literal href `/x.html` appearing twice. -/
theorem collect_links_dedup_witness :
    collect_links [anchor ("/x.html"), anchor ("/x.html")] =
      Except.ok ({HrefUrl.internal ("/x.html") none} : Finset HrefUrl) ∧
    ({HrefUrl.internal ("/x.html") none} : Finset HrefUrl).card = 1 :=
  collect_links_dedup ("/x.html") ("/x.html")
    (HrefUrl.internal ("/x.html") none) (by decide) (by decide)

/-- C9: fragment collection never fails — `collect_fragments` returns `Ok`
on every document, and never an error; a document scan can therefore only
fail in href or src classification, never in id extraction. -/
theorem collect_fragments_total (document : Html) :
    (∃ s, collect_fragments document = Except.ok s) ∧
    ∀ msg : String, collect_fragments document ≠ Except.error msg := by
  refine ⟨⟨_, collect_fragments_eq document⟩, ?_⟩
  intro msg h
  rw [collect_fragments_eq] at h
  cases h

/-- A tree with two scannable files and one file whose single anchor has an
unclassifiable href (the spec's fail-fast test layout). -/
def mixedTree : List FsEntry :=
  [⟨"good1.html", FsKind.file ("g1")⟩, ⟨"bad.html", FsKind.file ("b")⟩,
    ⟨"good2.html", FsKind.file ("g2")⟩]

/-- The parser for `mixedTree`: the bad file's content yields the anchor
with the unclassifiable href `ht!tp://bad`; the rest scan fine. -/
def mixedParse (content : String) : Html :=
  if content = "b" then [anchor ("ht!tp://bad")] else [anchor ("/ok.html")]

/-- C1: fail-fast indexing — whenever any single matched HTML file's scan
fails (its href or src classification fails), `parse_html_files` returns a
single error and never an index: no record of any file, valid or not, is
exposed in the result. -/
theorem parse_html_files_fail_fast (parseDoc : String → Html) (tree : List FsEntry)
    (entry : FsEntry) (c : String) (hmem : entry ∈ globHtml tree)
    (hk : entry.kind = FsKind.file c)
    (hfail : (∃ m, collect_links (parseDoc c) = Except.error m) ∨
      ∃ m, collect_imgs (parseDoc c) = Except.error m) :
    (∃ msg, parse_html_files parseDoc tree = Except.error msg) ∧
      ∀ index : ParsedFiles, parse_html_files parseDoc tree ≠ Except.ok index := by
  have habort : ∃ m, scanFile parseDoc entry = Except.error m := by
    cases hfail with
    | inl hl =>
      obtain ⟨m, hm⟩ := hl
      exact ⟨wrapFileErr entry.path m, scanFile_file_linkErr parseDoc entry c hk m hm⟩
    | inr hi =>
      obtain ⟨m, hm⟩ := hi
      cases hl : collect_links (parseDoc c) with
      | error m2 =>
        exact ⟨wrapFileErr entry.path m2,
          scanFile_file_linkErr parseDoc entry c hk m2 hl⟩
      | ok links =>
        exact ⟨wrapFileErr entry.path m,
          scanFile_file_imgErr parseDoc entry c hk links hl m hm⟩
  obtain ⟨msg, hmsg⟩ := scan_failure_aborts parseDoc tree entry hmem habort
  refine ⟨⟨msg, hmsg⟩, ?_⟩
  intro index hok
  rw [hmsg] at hok
  cases hok

/-- Witness for C1 at `mixedTree`: one bad file among two good ones forces
the whole index to be an error. -/
theorem parse_html_files_fail_fast_witness :
    ∃ msg, parse_html_files mixedParse mixedTree = Except.error msg :=
  (parse_html_files_fail_fast mixedParse mixedTree
    ⟨"bad.html", FsKind.file ("b")⟩ ("b") (by decide) rfl
    (Or.inl ⟨_, rfl⟩)).1

/-- The tree for the C7 counterexample: the glob pattern matches a
directory named `sub.html`. -/
def dirTree : List FsEntry :=
  [⟨"sub.html", FsKind.directory⟩]

/-- A tree with a good file plus a directory matching the HTML pattern. -/
def dirTree2 : List FsEntry :=
  [⟨"ok.html", FsKind.file ("c")⟩, ⟨"dir.html", FsKind.directory⟩]

/-- C7, counterexample: a directory named `sub.html` is matched by the glob
pattern, and `parse_html_files` does not skip it silently — reading it
fails and the indexer returns that error. -/
theorem parse_html_files_directory_cex :
    (⟨"sub.html", FsKind.directory⟩ : FsEntry) ∈ globHtml dirTree ∧
    parse_html_files (fun _ => []) dirTree =
      Except.error ("Is a directory (os error 21)") := by
  refine ⟨by decide, by decide⟩

/-- C7, amended: a non-file match of the HTML pattern is not skipped —
`parse_html_files` performs no file-type check, the read of such an entry
fails, and the whole run returns an error (so the entry indeed produces no
index entry, but by aborting the index rather than by being skipped). -/
theorem parse_html_files_directory_errors (parseDoc : String → Html)
    (tree : List FsEntry) (entry : FsEntry) (hmem : entry ∈ globHtml tree)
    (hk : entry.kind = FsKind.directory) :
    (∃ msg, parse_html_files parseDoc tree = Except.error msg) ∧
      ∀ index : ParsedFiles, parse_html_files parseDoc tree ≠ Except.ok index := by
  obtain ⟨msg, hmsg⟩ := scan_failure_aborts parseDoc tree entry hmem
    ⟨_, scanFile_dir parseDoc entry hk⟩
  refine ⟨⟨msg, hmsg⟩, ?_⟩
  intro index hok
  rw [hmsg] at hok
  cases hok

/-- Witness for C7's amended theorem at a tree holding one good file and
one directory match. -/
theorem parse_html_files_directory_errors_witness :
    ∃ msg, parse_html_files (fun _ => []) dirTree2 = Except.error msg :=
  (parse_html_files_directory_errors (fun _ => []) dirTree2
    ⟨"dir.html", FsKind.directory⟩ (by decide) rfl).1

/-- The context carried by an indexing failure: either the unwrapped read
error of a non-file match, or — for a classification failure — a failing
element and raw attribute value exist in the scanned document, and the
message contains the file's path, the element's serialized form, and the
raw string (the `MalformedUrl` carries the raw string it rejected). -/
def IndexErrorContext (parseDoc : String → Html) (tree : List FsEntry)
    (msg : String) : Prop :=
  (∃ entry ∈ globHtml tree, entry.kind = FsKind.directory ∧
    msg = "Is a directory (os error 21)") ∨
  ∃ entry ∈ globHtml tree, ∃ c, entry.kind = FsKind.file c ∧
    ∃ e ∈ parseDoc c, ∃ raw mu,
      ((e.attr ("href") = some raw ∧ HrefUrl.parse raw = Except.error mu) ∨
        (e.attr ("src") = some raw ∧ ImgUrl.parse raw = Except.error mu)) ∧
      mu.raw = raw ∧
      (∃ p q, msg = p ++ entry.path ++ q) ∧
      (∃ p q, msg = p ++ e.serialize ++ q) ∧
      (∃ p q, msg = p ++ raw ++ q)

/-- C8: every error produced by `parse_html_files` carries its accumulated
context — for a classification failure, the final message contains the
failing file's path, the offending element's serialized form, and the raw
attribute string. -/
theorem index_error_context (parseDoc : String → Html) (tree : List FsEntry)
    (msg : String) (h : parse_html_files parseDoc tree = Except.error msg) :
    IndexErrorContext parseDoc tree msg := by
  obtain ⟨entry, hentry, hscan⟩ := indexLoop_error_mem parseDoc (globHtml tree) msg h
  rcases scanFile_error parseDoc entry msg hscan with ⟨hdir, hmsg⟩ | ⟨c, hk, m, hcoll, hmsg⟩
  · exact Or.inl ⟨entry, hentry, hdir, hmsg⟩
  · refine Or.inr ⟨entry, hentry, c, hk, ?_⟩
    cases hcoll with
    | inl hl =>
      obtain ⟨e, hefil, raw, mu, hattr, hperr, hm⟩ :=
        linksLoop_error (List.filter linkSel (parseDoc c)) ∅ m hl
      have hraw := hrefParse_error_raw raw mu hperr
      refine ⟨e, (List.mem_filter.mp hefil).1, raw, mu,
        Or.inl ⟨hattr, hperr⟩, hraw, ?_, ?_, ?_⟩
      · exact ⟨"Error parsing file `", "`:\n  " ++ m,
          by simp only [hmsg, wrapFileErr, String.append_assoc]⟩
      · exact ⟨"Error parsing file `" ++ entry.path ++ "`:\n  " ++
            "Error in parsing href in element: ", "\n  " ++ mu.render,
          by simp only [hmsg, hm, wrapFileErr, String.append_assoc]⟩
      · exact ⟨"Error parsing file `" ++ entry.path ++ "`:\n  " ++
            "Error in parsing href in element: " ++ e.serialize ++ "\n  " ++
            mu.reason ++ ": `", "`",
          by simp only [hmsg, hm, wrapFileErr, MalformedUrl.render, hraw,
            String.append_assoc]⟩
    | inr hi =>
      obtain ⟨e, hefil, raw, mu, hattr, hperr, hm⟩ :=
        imgsLoop_error (List.filter imgSel (parseDoc c)) ∅ m hi
      have hraw := imgParse_error_raw raw mu hperr
      refine ⟨e, (List.mem_filter.mp hefil).1, raw, mu,
        Or.inr ⟨hattr, hperr⟩, hraw, ?_, ?_, ?_⟩
      · exact ⟨"Error parsing file `", "`:\n  " ++ m,
          by simp only [hmsg, wrapFileErr, String.append_assoc]⟩
      · exact ⟨"Error parsing file `" ++ entry.path ++ "`:\n  " ++
            "Error in parsing src in img: ", "\n  " ++ mu.render,
          by simp only [hmsg, hm, wrapFileErr, String.append_assoc]⟩
      · exact ⟨"Error parsing file `" ++ entry.path ++ "`:\n  " ++
            "Error in parsing src in img: " ++ e.serialize ++ "\n  " ++
            mu.reason ++ ": `", "`",
          by simp only [hmsg, hm, wrapFileErr, MalformedUrl.render, hraw,
            String.append_assoc]⟩

/-- The tree for the C8 witness: a single file whose single anchor has an
unclassifiable href. -/
def badTree : List FsEntry :=
  [⟨"bad.html", FsKind.file ("b")⟩]

/-- The parser for `badTree`. -/
def badParse (_ : String) : Html :=
  [anchor ("ht!tp://bad")]

/-- Witness for C8 at `badTree`: the concrete final message carries the
path `bad.html`, the serialized element, and the raw string. -/
theorem index_error_context_witness :
    IndexErrorContext badParse badTree
      ("Error parsing file `bad.html`:\n  Error in parsing href in element: <a href=\x22ht!tp://bad\x22>\n  invalid scheme: `ht!tp://bad`") :=
  index_error_context badParse badTree
    ("Error parsing file `bad.html`:\n  Error in parsing href in element: <a href=\x22ht!tp://bad\x22>\n  invalid scheme: `ht!tp://bad`")
    rfl

/-- A well-scanning single-file tree. -/
def goodTree : List FsEntry :=
  [⟨"a.html", FsKind.file ("c")⟩]

/-- The record produced for `goodTree` under the trivial parser. -/
def goodRecord : ParsedFile :=
  { path := "a.html", html := [], content := "c",
    links := ∅, imgs := ∅, fragments := ∅ }

/-- C10: in every index returned by `parse_html_files`, the key under which
a record is stored equals that record's own `path` field. -/
theorem parse_html_files_key_eq_path (parseDoc : String → Html)
    (tree : List FsEntry) (index : ParsedFiles)
    (h : parse_html_files parseDoc tree = Except.ok index) :
    ∀ kv ∈ index, kv.1 = kv.2.path := by
  intro kv hkv
  obtain ⟨entry, _, hok⟩ :=
    indexLoop_ok_mem parseDoc (globHtml tree) index h kv hkv
  exact scanFile_ok_path parseDoc entry kv hok

/-- Witness for C10 at `goodTree`. -/
theorem parse_html_files_key_eq_path_witness :
    ("a.html", goodRecord).1 = ("a.html", goodRecord).2.path :=
  parse_html_files_key_eq_path (fun _ => []) goodTree [("a.html", goodRecord)]
    rfl ("a.html", goodRecord) (List.Mem.head _)

end SiteCheck
